import Mathlib

/-!
Verification of the flag-sanitization core of `bot.py`.

The pure pipeline functions of the source (`is_banned`, `strip_code_fences`,
`parse_fflags`, `filter_flags`, `to_json`, and the preview logic of `scan`)
are embedded as executable Lean definitions over `List Char` / `String`,
with Python `dict` construction modelled as insertion-ordered association
lists with last-write-wins update.  External library calls (`json.loads`,
`re.findall`, `json.dumps`) are embedded by faithful reimplementation of
the behavior the source relies on.  Unicode-dependent Python behavior
(`str.lower`, `str.strip`, regex `\s`) is modelled at the ASCII level,
which covers every input considered here.
-/

namespace FFlagBot

/-- Python whitespace test (ASCII subset of `str.isspace` / regex `\s`). -/
def pyIsSpace (c : Char) : Bool :=
  c = ' ' || c = '\t' || c = '\n' || c = '\r' || c = '\x0b' || c = '\x0c'

/-- Python `str.strip()` (ASCII whitespace). -/
def pyStrip (s : String) : String :=
  ⟨((s.data.dropWhile pyIsSpace).reverse.dropWhile pyIsSpace).reverse⟩

/-- Python `str.lower()` (ASCII case folding). -/
def pyLower (s : String) : String := ⟨s.data.map Char.toLower⟩

/-- Substring containment on character lists: Python `needle in hay`. -/
def listSub (needle : List Char) : List Char → Bool
  | [] => needle.isEmpty
  | c :: t => needle.isPrefixOf (c :: t) || listSub needle t

/-- Python `needle in hay` for strings. -/
def pyInStr (needle hay : String) : Bool := listSub needle.data hay.data

/-- Python `d[k] = v` on an insertion-ordered dict represented as an
association list: an existing key keeps its position and receives the new
value, a fresh key is appended. -/
def pyDictInsert {α : Type} (d : List (String × α)) (k : String) (v : α) :
    List (String × α) :=
  if d.any (fun kv => kv.1 == k) then
    d.map (fun kv => if kv.1 = k then (k, v) else kv)
  else d ++ [(k, v)]

/-- Building a Python dict from a sequence of key/value pairs
(duplicates collapse last-write-wins, first position kept). -/
def pyDictOfList {α : Type} (pairs : List (String × α)) : List (String × α) :=
  pairs.foldl (fun d kv => pyDictInsert d kv.1 kv.2) []

/-- The keys of an association list, in order. -/
def keysOf {α : Type} (l : List (String × α)) : List String := l.map Prod.fst

/-- The value of the last occurrence of key `k` in a pair sequence. -/
def lastAssoc {α : Type} (k : String) : List (String × α) → Option α
  | [] => none
  | (k0, v0) :: t =>
    match lastAssoc k t with
    | some v => some v
    | none => if k0 = k then some v0 else none

/-! ## JSON values and a strict parser (embedding of `json.loads`) -/

/-- Parsed JSON values.  Non-integral numbers keep their source literal
(Python float formatting is not needed by any input considered here). -/
inductive JValue where
  | jnull
  | jbool (b : Bool)
  | jint (n : Int)
  | jfloat (lit : String)
  | jstr (s : String)
  | jarr (xs : List JValue)
  | jobj (kvs : List (String × JValue))

/-- Whitespace accepted by `json.loads` between tokens. -/
def jsonWsB (c : Char) : Bool := c = ' ' || c = '\t' || c = '\n' || c = '\r'

/-- Skip JSON whitespace. -/
def skipWs (cs : List Char) : List Char := cs.dropWhile jsonWsB

/-- Hex digit test. -/
def isHexDigitB (c : Char) : Bool :=
  c.isDigit || ('a' ≤ c && c ≤ 'f') || ('A' ≤ c && c ≤ 'F')

/-- Hex digit value. -/
def hexVal (c : Char) : Nat :=
  if c.isDigit then c.toNat - '0'.toNat
  else if 'a' ≤ c && c ≤ 'f' then c.toNat - 'a'.toNat + 10
  else c.toNat - 'A'.toNat + 10

/-- Parse the body of a JSON string after the opening quote, returning the
decoded characters and the remaining input.  Raw control characters are
rejected, as in strict `json.loads`. -/
def parseJStringChars : List Char → Option (List Char × List Char)
  | [] => none
  | c :: rest =>
    if c = '"' then some ([], rest)
    else if c = '\\' then
      match rest with
      | [] => none
      | e :: r2 =>
        if e = 'u' then
          match r2 with
          | h1 :: h2 :: h3 :: h4 :: r3 =>
            if isHexDigitB h1 && isHexDigitB h2 && isHexDigitB h3 && isHexDigitB h4 then
              match parseJStringChars r3 with
              | some (s, rem) =>
                some (Char.ofNat
                  (hexVal h1 * 4096 + hexVal h2 * 256 + hexVal h3 * 16 + hexVal h4) :: s, rem)
              | none => none
            else none
          | _ => none
        else
          match
            (if e = '"' then some '"'
             else if e = '\\' then some '\\'
             else if e = '/' then some '/'
             else if e = 'b' then some '\x08'
             else if e = 'f' then some '\x0c'
             else if e = 'n' then some '\n'
             else if e = 'r' then some '\r'
             else if e = 't' then some '\t'
             else none) with
          | some d =>
            match parseJStringChars r2 with
            | some (s, rem) => some (d :: s, rem)
            | none => none
          | none => none
    else if c.toNat < 32 then none
    else
      match parseJStringChars rest with
      | some (s, rem) => some (c :: s, rem)
      | none => none

/-- Fold decimal digits to a natural number. -/
def digitsToNat (ds : List Char) : Nat :=
  ds.foldl (fun a c => a * 10 + (c.toNat - '0'.toNat)) 0

/-- Parse a JSON number (strict grammar: no leading zeros, no bare sign).
Integral literals become `jint`, others keep their literal as `jfloat`. -/
def parseNumber (cs : List Char) : Option (JValue × List Char) :=
  let p := match cs with
    | '-' :: t => (true, t)
    | _ => (false, cs)
  let neg := p.1
  let cs1 := p.2
  match cs1 with
  | [] => none
  | d :: _ =>
    if !d.isDigit then none
    else
      let ip :=
        if d = '0' then (['0'], cs1.drop 1)
        else (cs1.takeWhile Char.isDigit, cs1.dropWhile Char.isDigit)
      let intDs := ip.1
      let rest1 := ip.2
      let fp :=
        match rest1 with
        | '.' :: r =>
          let ds := r.takeWhile Char.isDigit
          if ds.isEmpty then (([] : List Char), rest1)
          else ('.' :: ds, r.dropWhile Char.isDigit)
        | _ => ([], rest1)
      let fracDs := fp.1
      let rest2 := fp.2
      let ep :=
        match rest2 with
        | e :: r =>
          if e = 'e' || e = 'E' then
            let sp := match r with
              | '+' :: t => ((['+'] : List Char), t)
              | '-' :: t => (['-'], t)
              | _ => ([], r)
            let ds := sp.2.takeWhile Char.isDigit
            if ds.isEmpty then (([] : List Char), rest2)
            else (e :: (sp.1 ++ ds), sp.2.dropWhile Char.isDigit)
          else ([], rest2)
        | [] => ([], rest2)
      let expDs := ep.1
      let rest3 := ep.2
      if fracDs.isEmpty && expDs.isEmpty then
        let n : Int := Int.ofNat (digitsToNat intDs)
        some (.jint (if neg then -n else n), rest1)
      else
        some (.jfloat ⟨(if neg then ['-'] else []) ++ intDs ++ fracDs ++ expDs⟩, rest3)

/-- Consume an exact literal. -/
def dropLit (lit : List Char) (cs : List Char) : Option (List Char) :=
  if lit.isPrefixOf cs then some (cs.drop lit.length) else none

mutual

/-- Fuel-indexed recursive-descent JSON value parser. -/
def parseJValue : Nat → List Char → Option (JValue × List Char)
  | 0, _ => none
  | fuel+1, cs =>
    match skipWs cs with
    | [] => none
    | c :: rest =>
      if c = '"' then
        match parseJStringChars rest with
        | some (s, rem) => some (.jstr ⟨s⟩, rem)
        | none => none
      else if c = '\x7b' then parseObjStart fuel rest
      else if c = '[' then parseArrStart fuel rest
      else if c = 't' then (dropLit "rue".data rest).map (fun r => (.jbool true, r))
      else if c = 'f' then (dropLit "alse".data rest).map (fun r => (.jbool false, r))
      else if c = 'n' then (dropLit "ull".data rest).map (fun r => (.jnull, r))
      else if c = 'N' then (dropLit "aN".data rest).map (fun r => (.jfloat "nan", r))
      else if c = 'I' then (dropLit "nfinity".data rest).map (fun r => (.jfloat "inf", r))
      else if c = '-' && (match rest with | 'I' :: _ => true | _ => false) then
        (dropLit "Infinity".data rest).map (fun r => (.jfloat "-inf", r))
      else parseNumber (c :: rest)

/-- Parse an object body after the opening brace. -/
def parseObjStart : Nat → List Char → Option (JValue × List Char)
  | 0, _ => none
  | fuel+1, cs =>
    match skipWs cs with
    | '\x7d' :: rest => some (.jobj [], rest)
    | '"' :: rest =>
      match parseJStringChars rest with
      | some (k, r1) =>
        match skipWs r1 with
        | ':' :: r2 =>
          match parseJValue fuel r2 with
          | some (v, r3) =>
            match parseObjMore fuel r3 with
            | some (kvs, r4) => some (.jobj ((⟨k⟩, v) :: kvs), r4)
            | none => none
          | none => none
        | _ => none
      | none => none
    | _ => none

/-- Parse the continuation of an object body: `}` or `, "key": value …`. -/
def parseObjMore : Nat → List Char → Option (List (String × JValue) × List Char)
  | 0, _ => none
  | fuel+1, cs =>
    match skipWs cs with
    | '\x7d' :: rest => some ([], rest)
    | ',' :: r1 =>
      match skipWs r1 with
      | '"' :: r2 =>
        match parseJStringChars r2 with
        | some (k, r3) =>
          match skipWs r3 with
          | ':' :: r4 =>
            match parseJValue fuel r4 with
            | some (v, r5) =>
              match parseObjMore fuel r5 with
              | some (kvs, r6) => some ((⟨k⟩, v) :: kvs, r6)
              | none => none
            | none => none
          | _ => none
        | none => none
      | _ => none
    | _ => none

/-- Parse an array body after the opening bracket. -/
def parseArrStart : Nat → List Char → Option (JValue × List Char)
  | 0, _ => none
  | fuel+1, cs =>
    match skipWs cs with
    | ']' :: rest => some (.jarr [], rest)
    | _ =>
      match parseJValue fuel cs with
      | some (v, r1) =>
        match parseArrMore fuel r1 with
        | some (vs, r2) => some (.jarr (v :: vs), r2)
        | none => none
      | none => none

/-- Parse the continuation of an array body: `]` or `, value …`. -/
def parseArrMore : Nat → List Char → Option (List JValue × List Char)
  | 0, _ => none
  | fuel+1, cs =>
    match skipWs cs with
    | ']' :: rest => some ([], rest)
    | ',' :: r1 =>
      match parseJValue fuel r1 with
      | some (v, r2) =>
        match parseArrMore fuel r2 with
        | some (vs, r3) => some (v :: vs, r3)
        | none => none
      | none => none
    | _ => none

end

/-- Embedding of `json.loads`: parse one JSON value and require only
whitespace to follow; `none` models a raised `JSONDecodeError`. -/
def jsonParse (s : String) : Option JValue :=
  match parseJValue (2 * s.data.length + 4) s.data with
  | some (v, rest) => if (skipWs rest).isEmpty then some v else none
  | none => none

/-! ## Python `str()` of parsed JSON values -/

/-- Python `repr` of a string: single quotes preferred, double quotes when
the text holds a single quote but no double quote (escaping modelled for
backslash, the quote character, and ASCII control escapes). -/
def pyStrRepr (s : String) : String :=
  let q : Char := if s.data.contains '\'' && !s.data.contains '"' then '"' else '\''
  let esc : Char → List Char := fun c =>
    if c = '\\' then ['\\', '\\']
    else if c = q then ['\\', q]
    else if c = '\n' then ['\\', 'n']
    else if c = '\r' then ['\\', 'r']
    else if c = '\t' then ['\\', 't']
    else [c]
  ⟨q :: (s.data.foldr (fun c acc => esc c ++ acc) [q])⟩

/-- Joining a list of strings with a separator: Python `sep.join`. -/
def pyJoin (sep : String) : List String → String
  | [] => ""
  | [x] => x
  | x :: y :: t => x ++ sep ++ pyJoin sep (y :: t)

mutual

/-- Python `str()` (equal to `repr` on containers) of a value produced by
`json.loads`.  Object duplicates are collapsed last-write-wins, as Python
does while building the dict. -/
def pyReprJ : JValue → String
  | .jnull => "None"
  | .jbool b => if b then "True" else "False"
  | .jint n => toString n
  | .jfloat lit => lit
  | .jstr s => pyStrRepr s
  | .jarr xs => "[" ++ pyJoin ", " (pyReprList xs) ++ "]"
  | .jobj kvs =>
    "\x7b" ++
      pyJoin ", "
        ((pyDictOfList (pyReprItems kvs)).map
          (fun kv => pyStrRepr kv.1 ++ ": " ++ kv.2)) ++
      "\x7d"

/-- `repr` of each array element. -/
def pyReprList : List JValue → List String
  | [] => []
  | v :: t => pyReprJ v :: pyReprList t

/-- `repr` of each object value, keys kept for dict collapsing. -/
def pyReprItems : List (String × JValue) → List (String × String)
  | [] => []
  | (k, v) :: t => (k, pyReprJ v) :: pyReprItems t

end

/-- A Python value as held in the mapping returned by `parse_fflags`:
the results of `json.loads` seen as Python objects (containers keep their
parsed payload). -/
inductive PyValue where
  | pystr (s : String)
  | pybool (b : Bool)
  | pyint (n : Int)
  | pyfloat (lit : String)
  | pynone
  | pylist (xs : List JValue)
  | pydictv (kvs : List (String × JValue))

/-- The Python object corresponding to a parsed JSON value (one level). -/
def jvalToPy : JValue → PyValue
  | .jnull => .pynone
  | .jbool b => .pybool b
  | .jint n => .pyint n
  | .jfloat lit => .pyfloat lit
  | .jstr s => .pystr s
  | .jarr xs => .pylist xs
  | .jobj kvs => .pydictv kvs

/-- Python `str(v)` on such a value. -/
def pyStrPV : PyValue → String
  | .pystr s => s
  | .pybool b => if b then "True" else "False"
  | .pyint n => toString n
  | .pyfloat lit => lit
  | .pynone => "None"
  | .pylist xs => pyReprJ (.jarr xs)
  | .pydictv kvs => pyReprJ (.jobj kvs)

/-! ## Embedding of the source's settings and helpers -/

/-- Source: `BAN_CONTAINS = {"debounce", "decomp", "humanoid"}`. -/
def BAN_CONTAINS : List String := ["debounce", "decomp", "humanoid"]

/-- Source: `BAN_EXACT = set()`. -/
def BAN_EXACT : List String := []

/-- Source: `BAN_REGEX = []`.  A compiled regex is modelled by its
`re.search` match predicate. -/
def BAN_REGEX : List (String → Bool) := []

/-- Body of `is_banned`, parametric in the three configured rule families
(the source reads them from module-level settings). -/
def is_banned_with (exact contns : List String) (rxs : List (String → Bool))
    (name : String) : Bool :=
  let nlow := pyLower name
  if exact.contains name then true
  else if contns.any (fun s => pyInStr s nlow) then true
  else if rxs.any (fun rx => rx name) then true
  else false

/-- Source `is_banned`, with the configured settings. -/
def is_banned (name : String) : Bool :=
  is_banned_with BAN_EXACT BAN_CONTAINS BAN_REGEX name

/-- Source `strip_code_fences`. -/
def strip_code_fences (text : String) : String :=
  let t := pyStrip text
  if "```".data.isPrefixOf t.data && "```".data.isSuffixOf t.data then
    let core := pyStrip ⟨(t.data.drop 3).take (t.data.length - 6)⟩
    let firstLine := core.data.takeWhile (fun c => c ≠ '\n')
    if firstLine.length < core.data.length &&
        (pyLower ⟨firstLine⟩ = "json" || pyLower ⟨firstLine⟩ = "txt") then
      ⟨core.data.drop (firstLine.length + 1)⟩
    else core
  else t

/-! ## Embedding of the fallback extractor
`re.findall(r'"([^"]+)"\s*:\s*([^,\n}]+)', raw)` -/

/-- Characters that end a fallback value: the class `[^,\n}]` negated. -/
def valStop (c : Char) : Bool := c = ',' || c = '\n' || c = '\x7d'

/-- Try to match one `"key"\s*:\s*value` occurrence starting exactly at the
head of the input, returning the pair and the rest of the input after the
match.  The whitespace-only-value case reproduces the regex engine's
backtracking: `\s*` yields back just enough for `[^,\n}]+` to take one
non-newline whitespace character. -/
def matchPairAt : List Char → Option ((String × String) × List Char)
  | [] => none
  | c :: rest =>
    if c = '"' then
      let keyChars := rest.takeWhile (fun x => x ≠ '"')
      if keyChars.isEmpty then none
      else
        match rest.drop keyChars.length with
        | '"' :: r2 =>
          match r2.dropWhile pyIsSpace with
          | ':' :: r4 =>
            let w := r4.takeWhile pyIsSpace
            let afterW := r4.drop w.length
            let val := afterW.takeWhile (fun x => !valStop x)
            if !val.isEmpty then
              some ((⟨keyChars⟩, ⟨val⟩), afterW.drop val.length)
            else
              let trailNl := w.reverse.takeWhile (fun x => x = '\n')
              let w2 := w.take (w.length - trailNl.length)
              match w2.getLast? with
              | some lc => some ((⟨keyChars⟩, ⟨[lc]⟩), trailNl ++ afterW)
              | none => none
          | _ => none
        | _ => none
    else none

/-- Scan the input left to right, collecting non-overlapping matches as
`re.findall` does; scanning resumes after each match, or one character
further on failure.  Fuel is the input length, which suffices since every
step consumes at least one character. -/
def scanPairs : Nat → List Char → List (String × String)
  | 0, _ => []
  | _, [] => []
  | fuel+1, c :: rest =>
    match matchPairAt (c :: rest) with
    | some (kv, rem) => kv :: scanPairs fuel rem
    | none => scanPairs fuel rest

/-- The per-value cleanup of the fallback loop: `strip`, `rstrip(',')`,
then peeling one layer of matching single or double quotes. -/
def postProcessVal (v : String) : String :=
  let v1 := pyStrip v
  let v2 : String := ⟨(v1.data.reverse.dropWhile (fun c => c = ',')).reverse⟩
  if 2 ≤ v2.data.length &&
      ((v2.data.head? = some '"' && v2.data.getLast? = some '"') ||
       (v2.data.head? = some '\'' && v2.data.getLast? = some '\'')) then
    ⟨(v2.data.drop 1).dropLast⟩
  else v2

/-- The whole fallback branch of `parse_fflags`: extract pairs, clean each
value, and build the output dict. -/
def fallbackPairs (cleaned : String) : List (String × String) :=
  pyDictOfList
    ((scanPairs (cleaned.data.length + 1) cleaned.data).map
      (fun kv => (kv.1, postProcessVal kv.2)))

/-! ## Embedding of `parse_fflags`, `filter_flags`, `to_json`, `scan` -/

/-- Fence stripping and BOM `lstrip` applied at the top of `parse_fflags`. -/
def cleanInput (raw : String) : String :=
  ⟨(strip_code_fences raw).data.dropWhile (fun c => c = '\uFEFF')⟩

/-- The value conversion of the strict branch's dict comprehension:
`v if isinstance(v, str) else str(v)`. -/
def stringifyVal (j : JValue) : PyValue :=
  match jvalToPy j with
  | .pystr s => .pystr s
  | w => .pystr (pyStrPV w)

/-- Source `parse_fflags`: strict `json.loads` first (its result used only
when `.items()` exists, i.e. the value is an object — anything else raises
inside the `try` and falls through), else the tolerant regex fallback. -/
def parse_fflags (raw : String) : List (String × PyValue) :=
  let cleaned := cleanInput raw
  match jsonParse cleaned with
  | some (.jobj kvs) =>
    (pyDictOfList kvs).map (fun kv => (kv.1, stringifyVal kv.2))
  | _ =>
    (fallbackPairs cleaned).map (fun kv => (kv.1, PyValue.pystr kv.2))

/-- Source `filter_flags` (value type generic: the loop never inspects
values). -/
def filter_flags {α : Type} : List (String × α) →
    List (String × α) × List (String × α)
  | [] => ([], [])
  | (k, v) :: t =>
    let p := filter_flags t
    if is_banned k then (p.1, (k, v) :: p.2)
    else ((k, v) :: p.1, p.2)

/-- JSON string escaping as `json.dumps(..., ensure_ascii=False)` does:
quote, backslash and ASCII control characters only. -/
def jsonEscape (s : String) : String :=
  let hexDig : Nat → Char := fun n =>
    if n < 10 then Char.ofNat ('0'.toNat + n) else Char.ofNat ('a'.toNat + n - 10)
  let esc : Char → List Char := fun c =>
    if c = '"' then ['\\', '"']
    else if c = '\\' then ['\\', '\\']
    else if c = '\n' then ['\\', 'n']
    else if c = '\r' then ['\\', 'r']
    else if c = '\t' then ['\\', 't']
    else if c = '\x08' then ['\\', 'b']
    else if c = '\x0c' then ['\\', 'f']
    else if c.toNat < 32 then
      ['\\', 'u', '0', '0', hexDig (c.toNat / 16), hexDig (c.toNat % 16)]
    else [c]
  ⟨s.data.foldr (fun c acc => esc c ++ acc) []⟩

/-- A JSON string token. -/
def jsonQuote (s : String) : String := "\"" ++ jsonEscape s ++ "\""

/-- `json.dumps(d, indent=4, ensure_ascii=False)` for a flat dict of
string values. -/
def jsonDumps4 (items : List (String × String)) : String :=
  match items with
  | [] => "\x7b\x7d"
  | _ =>
    "\x7b\n" ++
      pyJoin ",\n"
        (items.map (fun kv => "    " ++ jsonQuote kv.1 ++ ": " ++ jsonQuote kv.2)) ++
      "\n\x7d"

/-- Source `to_json`: stringify every value (a dict comprehension, hence a
dict build) and dump with `indent=4, ensure_ascii=False`. -/
def to_json (d : List (String × PyValue)) : String :=
  jsonDumps4 (pyDictOfList (d.map (fun kv => (kv.1, pyStrPV kv.2))))

/-- One preview line of the `scan` command: `f'"{k}": "{v}"'`. -/
def preview_lines (removed : List (String × PyValue)) : List String :=
  removed.map (fun kv => "\"" ++ kv.1 ++ "\": \"" ++ pyStrPV kv.2 ++ "\"")

/-- The truncation marker appended by `scan` (the source file literally
holds the mojibake characters U+201A U+00C4 U+00B6). -/
def truncMarker : String := "\n\u201A\u00C4\u00B6 (truncated)"

/-- The removed-flags preview of `scan`: joined lines, sliced to the first
1500 characters with the marker appended when longer than 1500. -/
def make_preview (removed : List (String × PyValue)) : String :=
  let p := pyJoin "\n" (preview_lines removed)
  if 1500 < p.data.length then ⟨p.data.take 1500⟩ ++ truncMarker else p

/-- The pure result of one `scan` invocation past input acquisition. -/
structure ScanResult where
  kept : List (String × PyValue)
  removed : List (String × PyValue)
  kept_json : String
  removed_json : String
  title : String
  preview : Option String

/-- The pure core of the `scan` command: parse, report the no-flags signal
(`none`, replied as "Couldn't parse any flags") on an empty mapping, else
filter, serialize both buckets and build the preview. -/
def scan_core (raw : String) : Option ScanResult :=
  let fflags := parse_fflags raw
  if fflags.isEmpty then none
  else
    let p := filter_flags fflags
    some
      { kept := p.1
        removed := p.2
        kept_json := to_json p.1
        removed_json := to_json p.2
        title := if !p.2.isEmpty then "Illegal Flags Found!" else "No Illegal Flags Found"
        preview := if !p.2.isEmpty then some (make_preview p.2) else none }

/-! ## Spec-modelled schema classifier & coercer

The repository's `src/bot.py` has no schema/coercion stage: the definitions
below are modelled from the spec (§3 `PrefixSchema`, §4.4 "Schema
Classifier & Coercer") so that the claims referring to that stage can be
stated. -/

/-- Modelled from the spec: the expected value kinds of `PrefixSchema`. -/
inductive Kind where
  | kbool
  | kint
  | kstr
deriving DecidableEq

/-- Modelled from the spec: outcome of coercing one value — either a value
of the declared kind plus an optional coercion note, or a categorized
rejection reason. -/
inductive CoerceResult where
  | ok (v : PyValue) (note : Option String)
  | rejected (reason : String)

/-- A string of an optional leading `-` followed by digits, as an integer. -/
def pyIntLit? (s : String) : Option Int :=
  match s.data with
  | '-' :: ds =>
    if !ds.isEmpty && ds.all Char.isDigit then some (-(Int.ofNat (digitsToNat ds)))
    else none
  | ds =>
    if !ds.isEmpty && ds.all Char.isDigit then some (Int.ofNat (digitsToNat ds))
    else none

/-- The 32-bit signed range `[-2147483648, 2147483647]` of the spec. -/
def intInRange (n : Int) : Bool := -2147483648 ≤ n && n ≤ 2147483647

/-- Modelled from the spec: the per-kind coercion policy of §4.4 — native
values of the declared kind pass unchanged (integers only in range),
recognizable strings coerce with a note, in-syntax but out-of-range
integers are `int_out_of_range`, everything else is `bad_type_*`. -/
def coerce (k : Kind) (v : PyValue) : CoerceResult :=
  match k with
  | .kbool =>
    match v with
    | .pybool b => .ok (.pybool b) none
    | .pystr s =>
      let t := pyLower (pyStrip s)
      if t = "true" then .ok (.pybool true) (some "string_bool_fixed")
      else if t = "false" then .ok (.pybool false) (some "string_bool_fixed")
      else .rejected "bad_type_bool"
    | _ => .rejected "bad_type_bool"
  | .kint =>
    match v with
    | .pyint n =>
      if intInRange n then .ok (.pyint n) none else .rejected "int_out_of_range"
    | .pystr s =>
      match pyIntLit? s with
      | some n =>
        if intInRange n then .ok (.pyint n) (some "string_int_fixed")
        else .rejected "int_out_of_range"
      | none => .rejected "bad_type_int"
    | _ => .rejected "bad_type_int"
  | .kstr =>
    match v with
    | .pystr s => .ok (.pystr s) none
    | .pybool b => .ok (.pystr (if b then "true" else "false")) (some "primitive_to_string")
    | .pyint n => .ok (.pystr (toString n)) (some "primitive_to_string")
    | .pyfloat lit => .ok (.pystr lit) (some "primitive_to_string")
    | _ => .rejected "bad_type_str"

/-- A value is of exactly a declared kind (integers within the range). -/
def valHasKind : PyValue → Kind → Bool
  | .pybool _, .kbool => true
  | .pyint n, .kint => intInRange n
  | .pystr _, .kstr => true
  | _, _ => false

/-- Modelled from the spec: ordered first-match-wins lookup of the expected
kind by key prefix. -/
def lookupKindFor (schema : List (String × Kind)) (key : String) : Option Kind :=
  match schema with
  | [] => none
  | (p, k) :: t => if p.data.isPrefixOf key.data then some k else lookupKindFor t key

/-- Modelled from the spec: the schema stage — a key with no recognized
prefix drops as `unknown_type`, a coercion failure drops with its reason,
a success lands in the post-coercion kept bucket. -/
def applySchema (schema : List (String × Kind)) :
    List (String × PyValue) → List (String × PyValue) × List (String × String)
  | [] => ([], [])
  | (k, v) :: t =>
    let p := applySchema schema t
    match lookupKindFor schema k with
    | none => (p.1, (k, "unknown_type") :: p.2)
    | some kind =>
      match coerce kind v with
      | .ok v2 _ => ((k, v2) :: p.1, p.2)
      | .rejected r => (p.1, (k, r) :: p.2)

/-! ## Spec-modelled sorted serialization (for comparison with `to_json`) -/

/-- Code-point lexicographic strict order on strings (the key order of
`json.dumps(..., sort_keys=True)`). -/
def listLtB : List Char → List Char → Bool
  | [], [] => false
  | [], _ :: _ => true
  | _ :: _, [] => false
  | a :: as2, b :: bs =>
    if a.toNat < b.toNat then true
    else if b.toNat < a.toNat then false
    else listLtB as2 bs

/-- String version of `listLtB`. -/
def strLtB (a b : String) : Bool := listLtB a.data b.data

/-- Insert an entry before the first strictly-greater key. -/
def insertKV {α : Type} (kv : String × α) : List (String × α) → List (String × α)
  | [] => [kv]
  | h :: t => if strLtB kv.1 h.1 then kv :: h :: t else h :: insertKV kv t

/-- Insertion sort of an association list by key. -/
def sortKeys {α : Type} (d : List (String × α)) : List (String × α) :=
  d.foldr insertKV []

/-- Strictly-increasing-keys test. -/
def keysSortedB {α : Type} : List (String × α) → Bool
  | [] => true
  | [_] => true
  | a :: b :: t => strLtB a.1 b.1 && keysSortedB (b :: t)

/-- Modelled from the spec: the canonical serialization with "object keys
sorted lexicographically" that §4.5 claims `to_json` produces. -/
def to_json_sorted (d : List (String × PyValue)) : String :=
  to_json (sortKeys d)

/-- First-some choice on options. -/
def orElseO {α : Type} (a b : Option α) : Option α :=
  match a with
  | some v => some v
  | none => b

/-- Test for a JSON object at top level. -/
def jIsObj : JValue → Bool
  | .jobj _ => true
  | _ => false

/-- A 1600-character value, for exercising the preview budget. -/
def longA : String := ⟨List.replicate 1600 'a'⟩

/-- A removed-bucket with one entry whose preview line exceeds 1500
characters. -/
def removedX : List (String × PyValue) := [("K", PyValue.pystr longA)]

/-! # Theorems -/

/-! ## Dict-construction lemmas -/

theorem lookup_map_replace {α : Type} (t : List (String × α)) (k k' : String) (v : α)
    (hk : k' ≠ k) :
    (t.map (fun kv => if kv.1 = k then (k, v) else kv)).lookup k' = t.lookup k' := by
  induction t with
  | nil => rfl
  | cons kv t ih =>
    obtain ⟨k0, v0⟩ := kv
    rw [List.map_cons]
    by_cases h0 : k0 = k
    · rw [if_pos (show ((k0, v0) : String × α).1 = k from h0)]
      have hbe : (k' == k) = false := beq_eq_false_iff_ne.mpr hk
      have hbe0 : (k' == k0) = false := beq_eq_false_iff_ne.mpr (h0 ▸ hk)
      simp [List.lookup, hbe, hbe0, ih]
    · rw [if_neg (show ¬((k0, v0) : String × α).1 = k from h0)]
      cases hbe : k' == k0 <;> simp [List.lookup, hbe, ih]

theorem lookup_map_replace_self {α : Type} (t : List (String × α)) (k : String) (v : α)
    (hmem : t.any (fun kv => kv.1 == k) = true) :
    (t.map (fun kv => if kv.1 = k then (k, v) else kv)).lookup k = some v := by
  induction t with
  | nil => simp at hmem
  | cons kv t ih =>
    obtain ⟨k0, v0⟩ := kv
    rw [List.map_cons]
    by_cases h0 : k0 = k
    · rw [if_pos (show ((k0, v0) : String × α).1 = k from h0)]
      simp [List.lookup]
    · rw [if_neg (show ¬((k0, v0) : String × α).1 = k from h0)]
      have hm2 : t.any (fun kv => kv.1 == k) = true := by
        simp only [List.any_cons, Bool.or_eq_true, beq_iff_eq] at hmem
        rcases hmem with h | h
        · exact absurd h h0
        · exact h
      have hbe : (k == k0) = false := beq_eq_false_iff_ne.mpr (Ne.symm h0)
      simp [List.lookup, hbe, ih hm2]

theorem lookup_append_new {α : Type} (d : List (String × α)) (k : String) (v : α)
    (k' : String) (hmem : d.any (fun kv => kv.1 == k) = false) :
    (d ++ [(k, v)]).lookup k' = if k' = k then some v else d.lookup k' := by
  induction d with
  | nil =>
    by_cases h : k' = k
    · simp [List.lookup, h]
    · have hbe : (k' == k) = false := beq_eq_false_iff_ne.mpr h
      simp [List.lookup, hbe, h]
  | cons kv t ih =>
    obtain ⟨k0, v0⟩ := kv
    simp only [List.any_cons, Bool.or_eq_false_iff, beq_eq_false_iff_ne] at hmem
    rw [List.cons_append]
    by_cases hk0 : k' = k0
    · subst hk0
      have hne : k' ≠ k := hmem.1
      have hbe : (k' == k) = false := beq_eq_false_iff_ne.mpr hne
      simp [List.lookup, hne]
    · have hbe0 : (k' == k0) = false := beq_eq_false_iff_ne.mpr hk0
      simp [List.lookup, hbe0, ih hmem.2]

theorem lookup_pyDictInsert {α : Type} (d : List (String × α)) (k : String) (v : α)
    (k' : String) :
    (pyDictInsert d k v).lookup k' = if k' = k then some v else d.lookup k' := by
  unfold pyDictInsert
  by_cases hmem : d.any (fun kv => kv.1 == k) = true
  · rw [if_pos hmem]
    by_cases hk : k' = k
    · rw [hk, if_pos rfl]
      exact lookup_map_replace_self d k v hmem
    · rw [lookup_map_replace d k k' v hk, if_neg hk]
  · rw [if_neg hmem]
    have hmem2 : d.any (fun kv => kv.1 == k) = false := by
      revert hmem
      cases d.any (fun kv => kv.1 == k) <;> simp
    exact lookup_append_new d k v k' hmem2

theorem lookup_foldl_insert {α : Type} (pairs : List (String × α)) :
    ∀ (acc : List (String × α)) (k : String),
      (pairs.foldl (fun d kv => pyDictInsert d kv.1 kv.2) acc).lookup k =
        orElseO (lastAssoc k pairs) (acc.lookup k) := by
  induction pairs with
  | nil => intro acc k; rfl
  | cons kv t ih =>
    intro acc k
    obtain ⟨k0, v0⟩ := kv
    simp only [List.foldl_cons]
    rw [ih]
    simp only [lastAssoc]
    cases hla : lastAssoc k t with
    | some v => simp [orElseO]
    | none =>
      rw [lookup_pyDictInsert]
      by_cases h : k = k0
      · subst h
        rw [if_pos rfl, if_pos rfl]
        simp [orElseO]
      · rw [if_neg h, if_neg (fun hh : k0 = k => h hh.symm)]

theorem lookup_pyDictOfList {α : Type} (pairs : List (String × α)) (k : String) :
    (pyDictOfList pairs).lookup k = lastAssoc k pairs := by
  unfold pyDictOfList
  rw [lookup_foldl_insert]
  cases lastAssoc k pairs <;> simp [orElseO, List.lookup]

/-! ## Key-set lemmas for the partition invariant -/

theorem keysOf_map_snd {α β : Type} (l : List (String × α)) (g : α → β) :
    keysOf (l.map (fun kv => (kv.1, g kv.2))) = keysOf l := by
  simp [keysOf, List.map_map, Function.comp]

theorem keysOf_pyDictInsert_any {α : Type} (d : List (String × α)) (k : String) (v : α)
    (hmem : d.any (fun kv => kv.1 == k) = true) :
    keysOf (pyDictInsert d k v) = keysOf d := by
  unfold pyDictInsert
  rw [if_pos hmem]
  simp only [keysOf, List.map_map]
  apply List.map_congr_left
  intro kv _
  by_cases h : kv.1 = k
  · simp [h]
  · simp [h]

theorem keysOf_pyDictInsert_new {α : Type} (d : List (String × α)) (k : String) (v : α)
    (hmem : ¬ d.any (fun kv => kv.1 == k) = true) :
    keysOf (pyDictInsert d k v) = keysOf d ++ [k] := by
  unfold pyDictInsert
  rw [if_neg hmem]
  simp [keysOf]

theorem not_mem_keys_of_any_false {α : Type} (d : List (String × α)) (k : String)
    (hmem : ¬ d.any (fun kv => kv.1 == k) = true) : k ∉ keysOf d := by
  intro hk
  apply hmem
  rcases List.mem_map.mp hk with ⟨kv, hkv, hfst⟩
  exact List.any_eq_true.mpr ⟨kv, hkv, beq_iff_eq.mpr hfst⟩

theorem keys_nodup_pyDictInsert {α : Type} (d : List (String × α)) (k : String) (v : α)
    (hd : (keysOf d).Nodup) : (keysOf (pyDictInsert d k v)).Nodup := by
  by_cases hmem : d.any (fun kv => kv.1 == k) = true
  · rw [keysOf_pyDictInsert_any d k v hmem]
    exact hd
  · rw [keysOf_pyDictInsert_new d k v hmem]
    rw [List.nodup_append]
    exact ⟨hd, List.nodup_singleton k,
      by simp [List.Disjoint]
         intro a ha hak
         exact not_mem_keys_of_any_false d k hmem (hak ▸ ha)⟩

theorem keys_nodup_foldl_insert {α : Type} (pairs : List (String × α)) :
    ∀ (acc : List (String × α)), (keysOf acc).Nodup →
      (keysOf (pairs.foldl (fun d kv => pyDictInsert d kv.1 kv.2) acc)).Nodup := by
  induction pairs with
  | nil => intro acc h; exact h
  | cons kv t ih =>
    intro acc h
    simp only [List.foldl_cons]
    exact ih _ (keys_nodup_pyDictInsert acc kv.1 kv.2 h)

theorem keys_nodup_pyDictOfList {α : Type} (pairs : List (String × α)) :
    (keysOf (pyDictOfList pairs)).Nodup :=
  keys_nodup_foldl_insert pairs [] List.nodup_nil

theorem parse_fflags_eqn (raw : String) :
    parse_fflags raw =
      match jsonParse (cleanInput raw) with
      | some (.jobj kvs) => (pyDictOfList kvs).map (fun kv => (kv.1, stringifyVal kv.2))
      | _ => (fallbackPairs (cleanInput raw)).map (fun kv => (kv.1, PyValue.pystr kv.2)) := rfl

theorem keysOf_cons {α : Type} (a : String) (b : α) (l : List (String × α)) :
    keysOf ((a, b) :: l) = a :: keysOf l := rfl

theorem keysOf_nil {α : Type} : keysOf ([] : List (String × α)) = [] := rfl

theorem filter_flags_cons {α : Type} (k0 : String) (v0 : α) (t : List (String × α)) :
    filter_flags ((k0, v0) :: t) =
      if is_banned k0 then ((filter_flags t).1, (k0, v0) :: (filter_flags t).2)
      else ((k0, v0) :: (filter_flags t).1, (filter_flags t).2) := rfl

theorem applySchema_cons (schema : List (String × Kind)) (k0 : String) (v0 : PyValue)
    (t : List (String × PyValue)) :
    applySchema schema ((k0, v0) :: t) =
      match lookupKindFor schema k0 with
      | none => ((applySchema schema t).1, (k0, "unknown_type") :: (applySchema schema t).2)
      | some kind =>
        match coerce kind v0 with
        | .ok v2 _ => ((k0, v2) :: (applySchema schema t).1, (applySchema schema t).2)
        | .rejected r => ((applySchema schema t).1, (k0, r) :: (applySchema schema t).2) := rfl

theorem parse_fflags_keys_nodup (raw : String) :
    (keysOf (parse_fflags raw)).Nodup := by
  rw [parse_fflags_eqn]
  cases h : jsonParse (cleanInput raw) with
  | none =>
    dsimp only
    rw [show (fun kv : String × String => (kv.1, PyValue.pystr kv.2)) =
        (fun kv : String × String => (kv.1, (fun v => PyValue.pystr v) kv.2)) from rfl,
      keysOf_map_snd]
    exact keys_nodup_pyDictOfList _
  | some v =>
    cases v <;> dsimp only <;>
      first
      | (rw [show (fun kv : String × String => (kv.1, PyValue.pystr kv.2)) =
            (fun kv : String × String => (kv.1, (fun v => PyValue.pystr v) kv.2)) from rfl,
          keysOf_map_snd]
         exact keys_nodup_pyDictOfList _)
      | (rw [show (fun kv : String × JValue => (kv.1, stringifyVal kv.2)) =
            (fun kv : String × JValue => (kv.1, (fun v => stringifyVal v) kv.2)) from rfl,
          keysOf_map_snd]
         exact keys_nodup_pyDictOfList _)

theorem mem_keys_filter_flags {α : Type} (ff : List (String × α)) (k : String) :
    k ∈ keysOf ff ↔
      k ∈ keysOf (filter_flags ff).1 ∨ k ∈ keysOf (filter_flags ff).2 := by
  induction ff with
  | nil => simp [filter_flags, keysOf]
  | cons kv t ih =>
    obtain ⟨k0, v0⟩ := kv
    rw [filter_flags_cons]
    by_cases hb : is_banned k0 = true
    · rw [if_pos hb]
      dsimp only
      rw [keysOf_cons, keysOf_cons]
      simp only [List.mem_cons]
      rw [ih]
      tauto
    · rw [if_neg hb]
      dsimp only
      rw [keysOf_cons, keysOf_cons]
      simp only [List.mem_cons]
      rw [ih]
      tauto

theorem filter_flags_kept_unbanned {α : Type} (ff : List (String × α)) (k : String)
    (hk : k ∈ keysOf (filter_flags ff).1) : is_banned k = false := by
  induction ff with
  | nil => simp [filter_flags, keysOf] at hk
  | cons kv t ih =>
    obtain ⟨k0, v0⟩ := kv
    rw [filter_flags_cons] at hk
    by_cases hb : is_banned k0 = true
    · rw [if_pos hb] at hk
      dsimp only at hk
      exact ih hk
    · rw [if_neg hb] at hk
      dsimp only at hk
      rw [keysOf_cons] at hk
      rcases List.mem_cons.mp hk with h | h
      · subst h; exact Bool.eq_false_iff.mpr hb
      · exact ih h

theorem filter_flags_removed_banned {α : Type} (ff : List (String × α)) (k : String)
    (hk : k ∈ keysOf (filter_flags ff).2) : is_banned k = true := by
  induction ff with
  | nil => simp [filter_flags, keysOf] at hk
  | cons kv t ih =>
    obtain ⟨k0, v0⟩ := kv
    rw [filter_flags_cons] at hk
    by_cases hb : is_banned k0 = true
    · rw [if_pos hb] at hk
      dsimp only at hk
      rw [keysOf_cons] at hk
      rcases List.mem_cons.mp hk with h | h
      · subst h; exact hb
      · exact ih h
    · rw [if_neg hb] at hk
      dsimp only at hk
      exact ih hk

theorem filter_flags_kept_keys_sublist {α : Type} (ff : List (String × α)) :
    (keysOf (filter_flags ff).1).Sublist (keysOf ff) := by
  induction ff with
  | nil => simp [filter_flags, keysOf]
  | cons kv t ih =>
    obtain ⟨k0, v0⟩ := kv
    rw [filter_flags_cons, keysOf_cons]
    by_cases hb : is_banned k0 = true
    · rw [if_pos hb]
      dsimp only
      exact List.Sublist.cons k0 ih
    · rw [if_neg hb]
      dsimp only
      rw [keysOf_cons]
      exact List.Sublist.cons₂ k0 ih

theorem mem_keys_applySchema (schema : List (String × Kind))
    (l : List (String × PyValue)) (k : String) :
    k ∈ keysOf l ↔
      k ∈ keysOf (applySchema schema l).1 ∨ k ∈ keysOf (applySchema schema l).2 := by
  induction l with
  | nil => simp [applySchema, keysOf]
  | cons kv t ih =>
    obtain ⟨k0, v0⟩ := kv
    rw [applySchema_cons]
    cases hl : lookupKindFor schema k0 with
    | none =>
      dsimp only
      rw [keysOf_cons, keysOf_cons]
      simp only [List.mem_cons]
      rw [ih]
      tauto
    | some kind =>
      dsimp only
      cases hc : coerce kind v0 with
      | ok v2 n =>
        dsimp only
        rw [keysOf_cons, keysOf_cons]
        simp only [List.mem_cons]
        rw [ih]
        tauto
      | rejected r =>
        dsimp only
        rw [keysOf_cons, keysOf_cons]
        simp only [List.mem_cons]
        rw [ih]
        tauto

theorem applySchema_disjoint (schema : List (String × Kind))
    (l : List (String × PyValue)) (k : String) (hnd : (keysOf l).Nodup) :
    ¬(k ∈ keysOf (applySchema schema l).1 ∧ k ∈ keysOf (applySchema schema l).2) := by
  induction l with
  | nil => simp [applySchema, keysOf]
  | cons kv t ih =>
    obtain ⟨k0, v0⟩ := kv
    rw [keysOf_cons, List.nodup_cons] at hnd
    have hk0 : k0 ∉ keysOf t := hnd.1
    have iht := ih hnd.2
    rw [applySchema_cons]
    rintro ⟨h1, h2⟩
    rcases hl : lookupKindFor schema k0 with _ | kind
    · rw [hl] at h1 h2
      dsimp only at h1 h2
      rw [keysOf_cons] at h2
      rcases List.mem_cons.mp h2 with h2 | h2
      · subst h2
        exact hk0 ((mem_keys_applySchema schema t k).mpr (Or.inl h1))
      · exact iht ⟨h1, h2⟩
    · rw [hl] at h1 h2
      dsimp only at h1 h2
      rcases hc : coerce kind v0 with ⟨v2, n⟩ | r
      · rw [hc] at h1 h2
        dsimp only at h1 h2
        rw [keysOf_cons] at h1
        rcases List.mem_cons.mp h1 with h1 | h1
        · subst h1
          exact hk0 ((mem_keys_applySchema schema t k).mpr (Or.inr h2))
        · exact iht ⟨h1, h2⟩
      · rw [hc] at h1 h2
        dsimp only at h1 h2
        rw [keysOf_cons] at h2
        rcases List.mem_cons.mp h2 with h2 | h2
        · subst h2
          exact hk0 ((mem_keys_applySchema schema t k).mpr (Or.inl h1))
        · exact iht ⟨h1, h2⟩

theorem lookup_map_snd {α β : Type} (l : List (String × α)) (g : α → β) (k : String) :
    (l.map (fun kv => (kv.1, g kv.2))).lookup k = (l.lookup k).map g := by
  induction l with
  | nil => rfl
  | cons kv t ih =>
    obtain ⟨k0, v0⟩ := kv
    cases hbe : k == k0 <;> simp [List.lookup, hbe, ih]

theorem stringifyVal_is_str (j : JValue) : ∃ s, stringifyVal j = PyValue.pystr s := by
  cases j <;> exact ⟨_, rfl⟩

/-! ## Claim theorems -/

/-- C1: for every input mapping produced by parsing and any prefix schema,
the key sets of the three buckets — `kept` after the (spec-modelled) schema
stage, `removedIllegal` from the name filter, and `droppedInvalid` from the
schema stage — are pairwise disjoint and their union is exactly the parsed
key set: every parsed key is accounted for exactly once. -/
theorem c1_partition_invariant (raw : String) (schema : List (String × Kind))
    (k : String) :
    (k ∈ keysOf (parse_fflags raw) ↔
      (k ∈ keysOf (applySchema schema (filter_flags (parse_fflags raw)).1).1 ∨
       k ∈ keysOf (filter_flags (parse_fflags raw)).2 ∨
       k ∈ keysOf (applySchema schema (filter_flags (parse_fflags raw)).1).2)) ∧
    ¬(k ∈ keysOf (applySchema schema (filter_flags (parse_fflags raw)).1).1 ∧
      k ∈ keysOf (filter_flags (parse_fflags raw)).2) ∧
    ¬(k ∈ keysOf (applySchema schema (filter_flags (parse_fflags raw)).1).1 ∧
      k ∈ keysOf (applySchema schema (filter_flags (parse_fflags raw)).1).2) ∧
    ¬(k ∈ keysOf (filter_flags (parse_fflags raw)).2 ∧
      k ∈ keysOf (applySchema schema (filter_flags (parse_fflags raw)).1).2) := by
  refine ⟨?_, ?_, ?_, ?_⟩
  · rw [mem_keys_filter_flags (parse_fflags raw) k]
    constructor
    · rintro (h | h)
      · rcases (mem_keys_applySchema schema _ k).mp h with h2 | h2
        · exact Or.inl h2
        · exact Or.inr (Or.inr h2)
      · exact Or.inr (Or.inl h)
    · rintro (h | h | h)
      · exact Or.inl ((mem_keys_applySchema schema _ k).mpr (Or.inl h))
      · exact Or.inr h
      · exact Or.inl ((mem_keys_applySchema schema _ k).mpr (Or.inr h))
  · rintro ⟨h1, h2⟩
    have hk1 : k ∈ keysOf (filter_flags (parse_fflags raw)).1 :=
      (mem_keys_applySchema schema _ k).mpr (Or.inl h1)
    have hu := filter_flags_kept_unbanned (parse_fflags raw) k hk1
    have hbnd := filter_flags_removed_banned (parse_fflags raw) k h2
    rw [hu] at hbnd
    exact Bool.false_ne_true hbnd
  · have hnd : (keysOf (filter_flags (parse_fflags raw)).1).Nodup :=
      List.Nodup.sublist (filter_flags_kept_keys_sublist (parse_fflags raw))
        (parse_fflags_keys_nodup raw)
    exact applySchema_disjoint schema _ k hnd
  · rintro ⟨h1, h2⟩
    have hk1 : k ∈ keysOf (filter_flags (parse_fflags raw)).1 :=
      (mem_keys_applySchema schema _ k).mpr (Or.inr h2)
    have hu := filter_flags_kept_unbanned (parse_fflags raw) k hk1
    have hbnd := filter_flags_removed_banned (parse_fflags raw) k h1
    rw [hu] at hbnd
    exact Bool.false_ne_true hbnd

/-- C2: the name-policy filter bans a key iff at least one rule family
matches — case-sensitive exact membership, substring containment against
the lowercased key, or any regex matching the raw key; zero matches keep
the key, any single match removes it. -/
theorem c2_is_banned_iff (exact0 contns : List String) (rxs : List (String → Bool))
    (name : String) :
    is_banned_with exact0 contns rxs name = true ↔
      (name ∈ exact0 ∨
       (∃ s ∈ contns, pyInStr s (pyLower name) = true) ∨
       (∃ rx ∈ rxs, rx name = true)) := by
  unfold is_banned_with
  rcases h1 : exact0.contains name with _ | _ <;>
    rcases h2 : contns.any (fun s => pyInStr s (pyLower name)) with _ | _ <;>
      rcases h3 : rxs.any (fun rx => rx name) with _ | _ <;>
        simp_all [List.any_eq_true]

/-- C9: Python dict construction gives last-write-wins semantics — looking
up any key in the built mapping returns the value of that key's last
occurrence in the pair sequence — and both parser paths build their result
this way, as the two end-to-end duplicate-key runs show. -/
theorem c9_duplicate_last_write_wins :
    (∀ (α : Type) (pairs : List (String × α)) (k : String),
        (pyDictOfList pairs).lookup k = lastAssoc k pairs) ∧
    (∀ (raw : String) (kvs : List (String × JValue)) (k : String),
        jsonParse (cleanInput raw) = some (.jobj kvs) →
          (parse_fflags raw).lookup k = (lastAssoc k kvs).map stringifyVal) ∧
    parse_fflags "\x7b\"a\": 1, \"a\": 2\x7d" = [("a", PyValue.pystr "2")] ∧
    parse_fflags "\"a\": 1\n\"a\": 2" = [("a", PyValue.pystr "2")] := by
  refine ⟨fun α pairs k => lookup_pyDictOfList pairs k, ?_, rfl, rfl⟩
  intro raw kvs k h
  rw [parse_fflags_eqn, h]
  dsimp only
  rw [show (fun kv : String × JValue => (kv.1, stringifyVal kv.2)) =
      (fun kv : String × JValue => (kv.1, (fun v => stringifyVal v) kv.2)) from rfl,
    lookup_map_snd, lookup_pyDictOfList]

/-- C9 witness: the strict-path lookup law applied to a concrete
duplicate-key input. -/
theorem c9_duplicate_last_write_wins_witness :
    (parse_fflags "\x7b\"a\": 1, \"a\": 2\x7d").lookup "a" =
      (lastAssoc "a" [("a", JValue.jint 1), ("a", JValue.jint 2)]).map stringifyVal :=
  c9_duplicate_last_write_wins.2.1 "\x7b\"a\": 1, \"a\": 2\x7d"
    [("a", JValue.jint 1), ("a", JValue.jint 2)] "a" rfl

/-- C10: every value in the mapping returned by `parse_fflags` is a Python
string — the strict branch stringifies every non-string scalar and the
fallback extractor only produces strings. -/
theorem c10_values_all_strings (raw k : String) (v : PyValue)
    (hmem : (k, v) ∈ parse_fflags raw) : ∃ s, v = PyValue.pystr s := by
  rw [parse_fflags_eqn] at hmem
  have fb : (k, v) ∈ (fallbackPairs (cleanInput raw)).map
      (fun kv => (kv.1, PyValue.pystr kv.2)) → ∃ s, v = PyValue.pystr s := by
    intro hm
    rcases List.mem_map.mp hm with ⟨kv, _, heq⟩
    refine ⟨kv.2, ?_⟩
    have h2 := congrArg Prod.snd heq
    simpa using h2.symm
  cases h : jsonParse (cleanInput raw) with
  | none =>
    rw [h] at hmem
    exact fb hmem
  | some jv =>
    cases jv with
    | jobj kvs =>
      rw [h] at hmem
      dsimp only at hmem
      rcases List.mem_map.mp hmem with ⟨kv, _, heq⟩
      rcases stringifyVal_is_str kv.2 with ⟨s, hs⟩
      refine ⟨s, ?_⟩
      have h2 := congrArg Prod.snd heq
      simp only at h2
      rw [← h2, hs]
    | jnull => rw [h] at hmem; exact fb hmem
    | jbool b => rw [h] at hmem; exact fb hmem
    | jint n => rw [h] at hmem; exact fb hmem
    | jfloat lit => rw [h] at hmem; exact fb hmem
    | jstr s => rw [h] at hmem; exact fb hmem
    | jarr xs => rw [h] at hmem; exact fb hmem

/-- C10 witness: the single pair recovered from a bare `"a": 1` input
carries a string value. -/
theorem c10_values_all_strings_witness : ∃ s, PyValue.pystr "1" = PyValue.pystr s :=
  c10_values_all_strings "\"a\": 1" "a" (PyValue.pystr "1")
    (by rw [show parse_fflags "\"a\": 1" = [("a", PyValue.pystr "1")] from rfl]
        exact List.mem_singleton.mpr rfl)

/-- C3: the spec-modelled coercer: `("int", "42")` fixes to `42`,
`("int", "9999999999")` rejects as out of range, `("bool", "TRUE")` fixes
to `true`, `("string", 7)` stringifies with a note; every accepted value is
of exactly the declared kind and every rejection carries one of the
categorized reasons. -/
theorem c3_coerce_spec :
    (coerce .kint (.pystr "42") = .ok (.pyint 42) (some "string_int_fixed")) ∧
    (coerce .kint (.pystr "9999999999") = .rejected "int_out_of_range") ∧
    (coerce .kbool (.pystr "TRUE") = .ok (.pybool true) (some "string_bool_fixed")) ∧
    (coerce .kstr (.pyint 7) = .ok (.pystr "7") (some "primitive_to_string")) ∧
    (∀ (k : Kind) (v v2 : PyValue) (n : Option String),
        coerce k v = .ok v2 n → valHasKind v2 k = true) ∧
    (∀ (k : Kind) (v : PyValue) (r : String),
        coerce k v = .rejected r →
          r = "bad_type_bool" ∨ r = "bad_type_int" ∨ r = "int_out_of_range" ∨
            r = "bad_type_str") := by
  refine ⟨rfl, rfl, rfl, rfl, ?_, ?_⟩
  · intro k v v2 n h
    cases k <;> cases v <;> simp only [coerce] at h <;> try cases h
    all_goals repeat' split at h
    all_goals try cases h
    all_goals simp_all [valHasKind, intInRange]
  · intro k v r h
    cases k <;> cases v <;> simp only [coerce] at h <;> try cases h
    all_goals repeat' split at h
    all_goals try cases h
    all_goals simp_all

/-- C3 witness: the kind guarantee and the rejection categorization applied
at the spec's own concrete coercions. -/
theorem c3_coerce_spec_witness :
    valHasKind (PyValue.pyint 42) Kind.kint = true ∧
    ("int_out_of_range" = "bad_type_bool" ∨ "int_out_of_range" = "bad_type_int" ∨
      "int_out_of_range" = "int_out_of_range" ∨ "int_out_of_range" = "bad_type_str") :=
  ⟨c3_coerce_spec.2.2.2.2.1 Kind.kint (PyValue.pystr "42") (PyValue.pyint 42)
      (some "string_int_fixed") rfl,
   c3_coerce_spec.2.2.2.2.2 Kind.kint (PyValue.pystr "9999999999") "int_out_of_range" rfl⟩

/-- C4 counterexample: the brace-less input `"a": 1` contains no `{`...`}`
span, yet the parser recovers one pair instead of the claimed zero-pair
empty signal. -/
theorem c4_counterexample :
    ('\x7b' ∉ ("\"a\": 1" : String).data) ∧ parse_fflags "\"a\": 1" ≠ [] := by
  refine ⟨by decide, ?_⟩
  rw [show parse_fflags "\"a\": 1" = [("a", PyValue.pystr "1")] from rfl]
  simp

/-- C4 amended: the parser is total and yields zero pairs on the empty
string, and every zero-pair input makes `scan` stop with the non-fatal
no-flags signal (`none`) before any bucket is built; a brace-less input may
however still yield pairs through the fallback extractor. -/
theorem c4_amended :
    parse_fflags "" = [] ∧ scan_core "" = none ∧
    (∀ raw : String, parse_fflags raw = [] → scan_core raw = none) := by
  refine ⟨rfl, rfl, ?_⟩
  intro raw h
  unfold scan_core
  rw [h]
  rfl

/-- C4 witness: the amended no-flags rule applied at the empty input. -/
theorem c4_amended_witness : scan_core "" = none :=
  c4_amended.2.2 "" rfl

/-- Helper: insertion sort is the identity on a key-sorted list. -/
theorem sortKeys_sorted_id {α : Type} (d : List (String × α))
    (h : keysSortedB d = true) : sortKeys d = d := by
  induction d with
  | nil => rfl
  | cons a t ih =>
    cases t with
    | nil => rfl
    | cons b t2 =>
      have h12 : strLtB a.1 b.1 = true ∧ keysSortedB (b :: t2) = true := by
        simpa [keysSortedB, Bool.and_eq_true] using h
      show insertKV a (sortKeys (b :: t2)) = a :: b :: t2
      rw [ih h12.2]
      simp [insertKV, h12.1]

/-- C5 counterexample: `to_json` emits keys in insertion order — `"b"`
before `"a"` — so two insertion orders of the same two entries serialize to
different bytes, refuting lexicographically sorted, order-independent
output. -/
theorem c5_counterexample :
    to_json [("b", PyValue.pystr "1"), ("a", PyValue.pystr "2")] =
      "\x7b\n    \"b\": \"1\",\n    \"a\": \"2\"\n\x7d" ∧
    to_json [("b", PyValue.pystr "1"), ("a", PyValue.pystr "2")] ≠
      to_json [("a", PyValue.pystr "2"), ("b", PyValue.pystr "1")] := by
  refine ⟨rfl, ?_⟩
  rw [show to_json [("b", PyValue.pystr "1"), ("a", PyValue.pystr "2")] =
      "\x7b\n    \"b\": \"1\",\n    \"a\": \"2\"\n\x7d" from rfl,
    show to_json [("a", PyValue.pystr "2"), ("b", PyValue.pystr "1")] =
      "\x7b\n    \"a\": \"2\",\n    \"b\": \"1\"\n\x7d" from rfl]
  decide

/-- C5 amended: serialization is deterministic for a fixed entry order with
4-space indentation and non-ASCII preserved unescaped, and coincides with
the canonical key-sorted form exactly when the entries are already
key-sorted; key order otherwise follows insertion order. -/
theorem c5_amended :
    (∀ d : List (String × PyValue), keysSortedB d = true →
        to_json d = to_json_sorted d) ∧
    to_json [("Fé", PyValue.pystr "vü")] = "\x7b\n    \"Fé\": \"vü\"\n\x7d" := by
  refine ⟨?_, rfl⟩
  intro d h
  unfold to_json_sorted
  rw [sortKeys_sorted_id d h]

/-- C5 witness: the sorted-input agreement applied at a concrete sorted
dict. -/
theorem c5_amended_witness :
    to_json [("a", PyValue.pystr "1"), ("b", PyValue.pystr "2")] =
      to_json_sorted [("a", PyValue.pystr "1"), ("b", PyValue.pystr "2")] :=
  c5_amended.1 [("a", PyValue.pystr "1"), ("b", PyValue.pystr "2")] rfl

/-- C6 counterexample: `[{"a": 1}]` strictly parses to a top-level array,
yet is not rejected: the fallback extractor recovers the inner pair and
processing continues into the filtering stage. -/
theorem c6_counterexample :
    jsonParse (cleanInput "[\x7b\"a\": 1\x7d]") =
      some (.jarr [.jobj [("a", .jint 1)]]) ∧
    parse_fflags "[\x7b\"a\": 1\x7d]" = [("a", PyValue.pystr "1")] ∧
    (scan_core "[\x7b\"a\": 1\x7d]").isSome = true := ⟨rfl, rfl, rfl⟩

/-- C6 amended: a candidate whose strict parse is a non-object raises no
distinct `TopLevelNotObject` signal: the strict result is discarded and the
tolerant fallback extractor runs on the same candidate; only a zero-pair
outcome stops processing, with the generic no-flags signal. -/
theorem c6_amended (raw : String) (v : JValue)
    (h : jsonParse (cleanInput raw) = some v) (hv : jIsObj v = false) :
    parse_fflags raw =
      (fallbackPairs (cleanInput raw)).map (fun kv => (kv.1, PyValue.pystr kv.2)) := by
  rw [parse_fflags_eqn, h]
  cases v with
  | jobj kvs => simp [jIsObj] at hv
  | jnull => rfl
  | jbool b => rfl
  | jint n => rfl
  | jfloat lit => rfl
  | jstr s => rfl
  | jarr xs => rfl

/-- C6 witness: the fall-through applied at the top-level array `[1]`. -/
theorem c6_amended_witness :
    parse_fflags "[1]" =
      (fallbackPairs (cleanInput "[1]")).map (fun kv => (kv.1, PyValue.pystr kv.2)) :=
  c6_amended "[1]" (.jarr [.jint 1]) rfl rfl

/-- C7 counterexample: on the missing-comma input the fallback does not
recover `DFFlagX ↦ true`: the greedy value pattern swallows the rest of the
object, so `DFFlagX` maps to the corrupted tail instead. -/
theorem c7_counterexample :
    ¬((parse_fflags "\x7b\"DFFlagX\": true \"DFFlagY\": false\x7d").lookup "DFFlagX" =
        some (PyValue.pystr "true")) := by
  intro h
  have h1 : ((parse_fflags "\x7b\"DFFlagX\": true \"DFFlagY\": false\x7d").lookup
      "DFFlagX").map pyStrPV = some "true \"DFFlagY\": false" := rfl
  rw [h] at h1
  have h2 : some ("true" : String) = some "true \"DFFlagY\": false" := h1
  exact absurd (Option.some.inj h2) (by decide)

/-- C7 amended: the malformed input `{"DFFlagX": true "DFFlagY": false}`
does not fail hard — the pipeline proceeds — but the fallback recovers
exactly one pair, binding `DFFlagX` to the raw tail
`true "DFFlagY": false` rather than to `true`. -/
theorem c7_amended :
    (scan_core "\x7b\"DFFlagX\": true \"DFFlagY\": false\x7d").isSome = true ∧
    parse_fflags "\x7b\"DFFlagX\": true \"DFFlagY\": false\x7d" =
      [("DFFlagX", PyValue.pystr "true \"DFFlagY\": false")] := ⟨rfl, rfl⟩

/-- Helper: the preview definition, unfolded. -/
theorem make_preview_eqn (removed : List (String × PyValue)) :
    make_preview removed =
      if 1500 < (pyJoin "\n" (preview_lines removed)).data.length then
        (⟨(pyJoin "\n" (preview_lines removed)).data.take 1500⟩ : String) ++ truncMarker
      else pyJoin "\n" (preview_lines removed) := rfl

/-- Helper: the truncation marker is 16 characters long. -/
theorem truncMarker_len : truncMarker.data.length = 16 := rfl

/-- Helper: the single preview line of `removedX` is 1607 characters. -/
theorem previewX_len : (pyJoin "\n" (preview_lines removedX)).data.length = 1607 := by
  show (("\"K\": \"" ++ longA ++ "\"")).data.length = 1607
  have h6 : ("\"K\": \"" : String).data.length = 6 := rfl
  have h1 : ("\"" : String).data.length = 1 := rfl
  have hA : longA.data.length = 1600 := by
    rw [show longA.data = List.replicate 1600 'a' from rfl, List.length_replicate]
  rw [show (("\"K\": \"" ++ longA ++ "\"")).data =
      (("\"K\": \"" ++ longA).data ++ ("\"" : String).data) from rfl,
    List.length_append,
    show ("\"K\": \"" ++ longA).data = (("\"K\": \"" : String).data ++ longA.data)
      from rfl,
    List.length_append, h6, h1, hA]

/-- C8 counterexample: with one 1607-character preview line, truncation
slices the joined preview at exactly 1500 characters, a point that is not
the rendering of any prefix of the item list — the single listed item is
split mid-entry. -/
theorem c8_counterexample :
    make_preview removedX =
      (⟨(pyJoin "\n" (preview_lines removedX)).data.take 1500⟩ : String) ++ truncMarker ∧
    ∀ n : Nat,
      (⟨(pyJoin "\n" (preview_lines removedX)).data.take 1500⟩ : String) ≠
        pyJoin "\n" ((preview_lines removedX).take n) := by
  have hlen : 1500 < (pyJoin "\n" (preview_lines removedX)).data.length := by
    rw [previewX_len]; omega
  have htk : ((⟨(pyJoin "\n" (preview_lines removedX)).data.take 1500⟩ : String)
      ).data.length = 1500 := by
    show ((pyJoin "\n" (preview_lines removedX)).data.take 1500).length = 1500
    rw [List.length_take, previewX_len]
    omega
  refine ⟨by rw [make_preview_eqn, if_pos hlen], ?_⟩
  intro n heq
  have hlen2 := congrArg (fun s : String => s.data.length) heq
  simp only at hlen2
  rw [htk] at hlen2
  cases n with
  | zero =>
    rw [show (pyJoin "\n" ((preview_lines removedX).take 0)).data.length = 0 from rfl]
      at hlen2
    exact absurd hlen2 (by decide)
  | succ m =>
    have hsame : pyJoin "\n" ((preview_lines removedX).take (m + 1)) =
        pyJoin "\n" (preview_lines removedX) := by
      rw [show preview_lines removedX = ["\"K\": \"" ++ longA ++ "\""] from rfl,
        List.take_succ_cons, List.take_nil]
    rw [hsame, previewX_len] at hlen2
    exact absurd hlen2 (by decide)

/-- C8 amended: the preview never exceeds 1516 characters (the 1500
character budget plus the 16-character marker), and whenever the joined
preview exceeds 1500 characters it is cut at exactly its first 1500
characters — possibly mid-entry — with the truncation marker appended. -/
theorem c8_amended :
    (∀ removed : List (String × PyValue), (make_preview removed).data.length ≤ 1516) ∧
    (∀ removed : List (String × PyValue),
        1500 < (pyJoin "\n" (preview_lines removed)).data.length →
          make_preview removed =
            (⟨(pyJoin "\n" (preview_lines removed)).data.take 1500⟩ : String) ++
              truncMarker) := by
  constructor
  · intro removed
    rw [make_preview_eqn]
    by_cases h : 1500 < (pyJoin "\n" (preview_lines removed)).data.length
    · rw [if_pos h]
      have he : ((⟨(pyJoin "\n" (preview_lines removed)).data.take 1500⟩ : String) ++
          truncMarker).data.length =
          ((pyJoin "\n" (preview_lines removed)).data.take 1500).length +
            truncMarker.data.length := by
        rw [show ((⟨(pyJoin "\n" (preview_lines removed)).data.take 1500⟩ : String) ++
            truncMarker).data =
            ((pyJoin "\n" (preview_lines removed)).data.take 1500 ++ truncMarker.data)
          from rfl, List.length_append]
      rw [he, List.length_take, truncMarker_len]
      omega
    · rw [if_neg h]
      omega
  · intro removed h
    rw [make_preview_eqn, if_pos h]

/-- C8 witness: the truncation rule applied at the over-budget bucket. -/
theorem c8_amended_witness :
    make_preview removedX =
      (⟨(pyJoin "\n" (preview_lines removedX)).data.take 1500⟩ : String) ++ truncMarker :=
  c8_amended.2 removedX (by rw [previewX_len]; omega)

end FFlagBot
